import Mathlib

/-
Formal model of the darkstar quiz bot (`src/app.py`) and proofs about the
properties its specification claims.  Pure helper functions of the bot are
translated directly into Lean functions; Python strings are modelled at the
level of their character lists (ASCII, which is all the bot's own literals
use), Python dicts that are only ever iterated in insertion order are
modelled as association lists in that order, and the module-level
`QUIZ_STATE` dict is modelled as a map from channel ids to session states.
The one external dependency inside the modelled code, `fuzz.ratio` from the
fuzzywuzzy library, is kept abstract as a function parameter `fr`, exactly
as the spec itself allows ("exact library behavior need not be
bit-reproduced").
-/

namespace Darkstar

/-- Python `str.strip()` whitespace set (ASCII part): space, tab, newline,
carriage return, vertical tab, form feed. -/
def pyWS (c : Char) : Bool :=
  c = ' ' || c = '\t' || c = '\n' || c = '\r' || c = '\x0b' || c = '\x0c'

/-- Python `str.strip()` on a character list: drop whitespace from both ends. -/
def pyStrip (s : List Char) : List Char :=
  ((s.dropWhile pyWS).reverse.dropWhile pyWS).reverse

/-- Python `str.strip()` on a `String`. -/
def pyStripStr (s : String) : String :=
  String.mk (pyStrip s.data)

/-- Python `str.upper()` (ASCII). -/
def pyUpper (s : String) : String :=
  String.mk (s.data.map Char.toUpper)

/-- Python `str.lower()` (ASCII). -/
def pyLower (s : String) : String :=
  String.mk (s.data.map Char.toLower)

/-- Code-fence stripping performed by `generate_quiz` before `json.loads`
(`src/app.py` lines 634-643 and identically 708-717):
strip, drop a leading "```json" (7 chars) or bare "```" (3 chars), drop a
trailing "```", strip again. -/
def strip_code_fence (s : List Char) : List Char :=
  let s1 := pyStrip s
  let s2 := if ("```json".toList).isPrefixOf s1 then s1.drop 7 else s1
  let s3 := if ("```".toList).isPrefixOf s2 then s2.drop 3 else s2
  let s4 := if ("```".toList).isSuffixOf s3 then s3.take (s3.length - 3) else s3
  pyStrip s4

/-- A fenced code block wrapper around `text` with language tag `tag`
(empty `tag` is a bare fence). -/
def fencedBlock (tag text : List Char) : List Char :=
  "```".toList ++ tag ++ '\n' :: (text ++ '\n' :: "```".toList)

/-- A quiz question as it is stored after validation in `generate_quiz`
(`src/app.py` lines 648-654): the four required dict keys plus the optional
`topic` and `page` keys that `shuffle_quiz_options` preserves. -/
structure Question where
  q : String
  options : List String
  answer : String
  explain : String
  topic : Option String := none
  page : Option Int := none
deriving DecidableEq, Repr

/-- One JSON object of the array returned by the question source, before
validation; each of the keys the code looks at may be absent. -/
structure RawItem where
  q : Option String := none
  options : Option (List String) := none
  answer : Option String := none
  explain : Option String := none
  topic : Option String := none
  page : Option Int := none
deriving DecidableEq, Repr

/-- `STOPWORDS` (`src/app.py` lines 444-450). -/
def STOPWORDS : List String :=
  ["the", "a", "an", "and", "or", "but", "in", "on", "at", "to", "for",
   "of", "with", "by", "from", "is", "are", "was", "were", "be", "been",
   "being", "have", "has", "had", "do", "does", "did", "will", "would",
   "should", "could", "may", "might", "must", "can", "what", "which",
   "who", "when", "where", "why", "how", "this", "that", "these", "those"]

/-- A Python `\w` word character (ASCII part). -/
def isWordChar (c : Char) : Bool :=
  c.isAlphanum || c = '_'

/-- Helper for `splitRuns`: `run` is the current (reversed) run of
characters satisfying `p`. -/
def splitRunsAux (p : Char → Bool) : List Char → List Char → List (List Char)
  | run, [] => if run.isEmpty then [] else [run.reverse]
  | run, c :: cs =>
    if p c then splitRunsAux p (c :: run) cs
    else if run.isEmpty then splitRunsAux p [] cs
    else run.reverse :: splitRunsAux p [] cs

/-- Split a character list into its maximal runs of characters satisfying
`p`, discarding the separators. -/
def splitRuns (p : Char → Bool) (l : List Char) : List (List Char) :=
  splitRunsAux p [] l

/-- `re.findall(r'\b[a-z]+\b', text)` on already-lowercased text: the maximal
word-character runs that consist purely of lowercase letters (a run
containing a digit or underscore has no word boundary inside it, so it
yields no match). -/
def lowerWordTokens (text : String) : List String :=
  ((splitRuns isWordChar (pyLower text).data).filter
    (fun r => r.all Char.isLower)).map (fun r => String.mk r)

/-- The content-word filter used by both extractors (`src/app.py` lines
475 and 505): not a stopword and longer than 3 characters. -/
def contentWords (words : List String) : List String :=
  words.filter (fun w => !(STOPWORDS.contains w) && decide (3 < w.length))

/-- Helper for `dedupFirst`: `seen` holds the words already emitted. -/
def dedupFirstAux : List String → List String → List String
  | _, [] => []
  | seen, w :: rest =>
    if seen.contains w then dedupFirstAux seen rest
    else w :: dedupFirstAux (w :: seen) rest

/-- The distinct elements of a list, in first-occurrence order (the key
order of a `collections.Counter` built from the list). -/
def dedupFirst (l : List String) : List String :=
  dedupFirstAux [] l

/-- `Counter(words).items()`: each distinct word with its multiplicity, in
first-occurrence order. -/
def counterItems (words : List String) : List (String × Nat) :=
  (dedupFirst words).map (fun w => (w, words.count w))

/-- Stable insertion into a descending-by-second-component list: the new
element `x` comes from earlier input than the list elements, so it is
placed before the first element whose key is not strictly greater.  This is
the ordering contract of Python's stable `sorted(..., key=count,
reverse=True)` and of `Counter.most_common`. -/
def insertPairDesc {α : Type} (x : α × Nat) : List (α × Nat) → List (α × Nat)
  | [] => [x]
  | y :: ys => if y.2 > x.2 then y :: insertPairDesc x ys else x :: y :: ys

/-- Stable sort, descending by the `Nat` component; models Python's stable
`sorted(items, key=itemgetter(1), reverse=True)`. -/
def sortPairsDesc {α : Type} : List (α × Nat) → List (α × Nat)
  | [] => []
  | x :: xs => insertPairDesc x (sortPairsDesc xs)

/-- `Counter(words).most_common(n)`: counts sorted by frequency descending,
ties in first-encounter order, truncated to `n`. -/
def mostCommon (n : Nat) (words : List String) : List (String × Nat) :=
  (sortPairsDesc (counterItems words)).take n

/-- The fallback branch of `extract_topic_from_question` (`src/app.py`
lines 468-489): top words of the question text joined into a hyphenated
tag. -/
def topic_from_text (text : String) : String :=
  let words := lowerWordTokens text
  let content := contentWords words
  if content.isEmpty then "unknown"
  else
    let top := (mostCommon 3 content).map (fun p => p.1)
    if 2 ≤ top.length then (top.getD 0 "unknown") ++ "-" ++ (top.getD 1 "unknown")
    else top.headD "unknown"

/-- `extract_topic_from_question` (`src/app.py` lines 453-489): use the
supplied topic (lowercased, stripped) when present and non-empty, else
derive one from the question text. -/
def extract_topic_from_question (question : Question) : String :=
  match question.topic with
  | some t => if t.isEmpty then topic_from_text question.q else pyStripStr (pyLower t)
  | none => topic_from_text question.q

/-- `extract_keywords` (`src/app.py` lines 492-511) with its default
`top_n = 5`; the Python `set` result is modelled by the (duplicate-free)
list of the top words. -/
def extract_keywords (text : String) : List String :=
  let content := contentWords (lowerWordTokens text)
  if content.isEmpty then []
  else (mostCommon 5 content).map (fun p => p.1)

/-- `are_questions_similar` (`src/app.py` lines 514-551), with the external
`fuzz.ratio` abstracted as `fr`.  The Python float test
`overlap / total > 0.4` is modelled as the exact rational comparison
`overlap / total > 2/5`; for the values reachable here (both sides built
from keyword sets of at most 5 elements, so `total ≤ 10`) the IEEE double
comparison and the rational comparison agree. -/
def are_questions_similar (fr : String → String → Nat) (q1 q2 : Question)
    (topic1 topic2 : String) : Bool :=
  if topic1 == topic2 then true
  else if 85 < fr (pyLower q1.q) (pyLower q2.q) then true
  else
    let k1 := extract_keywords q1.q
    let k2 := extract_keywords q2.q
    if !k1.isEmpty && !k2.isEmpty then
      let overlap := (k1.filter (fun w => k2.contains w)).length
      let total := k1.length + (k2.filter (fun w => !(k1.contains w))).length
      decide (0 < total) && decide (2 * total < 5 * overlap)
    else false

/-- The loop body of `deduplicate_questions` (`src/app.py` lines 564-581):
scan the remaining candidates, carrying the accepted questions and their
topics. -/
def dedupAux (fr : String → String → Nat) :
    List Question → List String → List Question → List Question × List String
  | unique, topics, [] => (unique, topics)
  | unique, topics, q :: rest =>
    let topic := extract_topic_from_question q
    if (unique.zip topics).any (fun e => are_questions_similar fr q e.1 topic e.2) then
      dedupAux fr unique topics rest
    else
      dedupAux fr (unique ++ [q]) (topics ++ [topic]) rest

/-- `deduplicate_questions` (`src/app.py` lines 554-581). -/
def deduplicate_questions (fr : String → String → Nat) (questions : List Question) :
    List Question × List String :=
  dedupAux fr [] [] questions

/-- The validation pass of `generate_quiz` (`src/app.py` lines 648-654 and
721-727): keep items with all four keys, exactly 4 options, and an answer
that normalizes to one of A/B/C/D; the normalized answer is stored back. -/
def validate_items (items : List RawItem) : List Question :=
  items.filterMap (fun item =>
    match item.q, item.options, item.answer, item.explain with
    | some qt, some opts, some ans, some ex =>
      if opts.length == 4 then
        let ansU := pyUpper (pyStripStr ans)
        if ansU == "A" || ansU == "B" || ansU == "C" || ansU == "D" then
          some { q := qt, options := opts, answer := ansU, explain := ex,
                 topic := item.topic, page := item.page }
        else none
      else none
    | _, _, _, _ => none)

/-- The inner `for q in regen_valid` loop of `generate_quiz` (`src/app.py`
lines 730-747): append each regenerated question that is not similar to any
already-accumulated one, stopping as soon as the target count is reached. -/
def add_non_dup (fr : String → String → Nat) (n : Nat) :
    List Question → List String → List Question → List Question × List String
  | uq, ut, [] => (uq, ut)
  | uq, ut, q :: rest =>
    let topic := extract_topic_from_question q
    if (uq.zip ut).any (fun e => are_questions_similar fr q e.1 topic e.2) then
      add_non_dup fr n uq ut rest
    else
      if n ≤ uq.length + 1 then (uq ++ [q], ut ++ [topic])
      else add_non_dup fr n (uq ++ [q]) (ut ++ [topic]) rest

/-- The regeneration `while` loop of `generate_quiz` (`src/app.py` lines
666-751), written with the number of remaining rounds as the structural
argument: `remaining = 3 - attempt` and `k = attempt + 1` is the index of
the next question-source response.  A response of `none` models a reply the
except-clause at line 749 rejects (JSON decode failure or any other
exception while handling the reply), which makes the round `continue`. -/
def regen_go (fr : String → String → Nat) (resp : Nat → Option (List RawItem))
    (n : Nat) : Nat → Nat → List Question → List String → List Question × List String
  | 0, _, uq, ut => (uq, ut)
  | remaining + 1, k, uq, ut =>
    if uq.length < n then
      match resp k with
      | none => regen_go fr resp n remaining (k + 1) uq ut
      | some items =>
        let p := add_non_dup fr n uq ut (validate_items items)
        regen_go fr resp n remaining (k + 1) p.1 p.2
    else (uq, ut)

/-- The full regeneration loop: at most 3 rounds, consuming responses 1, 2,
3. -/
def regen_loop (fr : String → String → Nat) (resp : Nat → Option (List RawItem))
    (n : Nat) (uq : List Question) (ut : List String) : List Question × List String :=
  regen_go fr resp n 3 1 uq ut

/-- `generate_quiz` (`src/app.py` lines 584-777) as a function of the
sequence of question-source responses: `resp 0` is the initial reply and
`resp k` the reply of regeneration round `k`.  `resp i = none` models a
reply whose handling raises (JSON decode failure, or a payload shape that
makes validation raise), which the code turns into `return None` for the
initial reply (lines 771-777) and into `continue` inside a round. -/
def generate_quiz (fr : String → String → Nat) (resp : Nat → Option (List RawItem))
    (num_questions : Nat) : Option (List Question) :=
  match resp 0 with
  | none => none
  | some data =>
    let valid := validate_items data
    if valid.isEmpty then none
    else
      let d := deduplicate_questions fr valid
      let f := regen_loop fr resp num_questions d.1 d.2
      if num_questions ≤ f.1.length then some (f.1.take num_questions)
      else if 0 < f.1.length then some f.1
      else none

/-- The unique set accumulated by `generate_quiz` after the initial
deduplication and the bounded regeneration rounds, for a given first
payload `data`. -/
def accumulated_unique (fr : String → String → Nat) (resp : Nat → Option (List RawItem))
    (n : Nat) (data : List RawItem) : List Question :=
  (regen_loop fr resp n (deduplicate_questions fr (validate_items data)).1
    (deduplicate_questions fr (validate_items data)).2).1

/-- `answer_index = ord(answer.strip().upper()) - ord('A')` (`src/app.py`
lines 407-408).  Python's `ord` demands a single character; the callers
only reach this with a validated single-letter answer, which the model
reads off as the head character. -/
def answer_index_of (answer : String) : Nat :=
  ((pyUpper (pyStripStr answer)).data.headD 'A').toNat - 'A'.toNat

/-- The `options_with_correctness` list of `shuffle_quiz_options`
(`src/app.py` lines 411-414): each option text paired with whether its
position is the correct one. -/
def options_with_correctness (question : Question) : List (String × Bool) :=
  question.options.enum.map (fun p => (p.2, p.1 == answer_index_of question.answer))

/-- `shuffle_quiz_options` (`src/app.py` lines 401-439).  The effect of
`random.shuffle` is modelled by passing in the permuted list `shuffled`
directly (theorems about this function assume
`shuffled.Perm (options_with_correctness question)`); the rest is the
code's deterministic reconstruction: find the new position of the correct
pair, rebuild the question with the permuted texts and the recomputed
letter, and carry the other fields over. -/
def shuffle_quiz_options (question : Question) (shuffled : List (String × Bool)) :
    Question :=
  let new_answer_index := shuffled.findIdx (fun p => p.2)
  { q := question.q
    options := shuffled.map (fun p => p.1)
    answer := String.mk [Char.ofNat ('A'.toNat + new_answer_index)]
    explain := question.explain
    topic := question.topic
    page := question.page }

/-- Per-participant score (`src/app.py` lines 819-826): one point for each
stored answer whose question index is in range and whose choice equals that
question's normalized correct letter.  A participant's answer dict is
modelled as an association list `questionIndex -> choice` in insertion
order (Python dict keys are unique and insertion-ordered). -/
def score_user (questions : List Question) (answers : List (Nat × String)) : Nat :=
  answers.countP (fun p =>
    match questions.get? p.1 with
    | some qq => p.2 == pyUpper (pyStripStr qq.answer)
    | none => false)

/-- The correct/incorrect partition for one question of the results
(`src/app.py` lines 874-882): participants who answered question `idx`,
split on whether their stored choice equals the normalized answer, in
participant insertion order. -/
def question_breakdown (user_answers : List (String × List (Nat × String)))
    (idx : Nat) (qq : Question) : List String × List String :=
  let correctAns := pyUpper (pyStripStr qq.answer)
  ((user_answers.filter (fun u =>
      match u.2.lookup idx with
      | some c => c == correctAns
      | none => false)).map (fun u => u.1),
   (user_answers.filter (fun u =>
      match u.2.lookup idx with
      | some c => !(c == correctAns)
      | none => false)).map (fun u => u.1))

/-- The results report assembled by `display_quiz_results` (`src/app.py`
lines 817-916): the leaderboard and the per-question breakdown. -/
structure QuizResults where
  leaderboard : List (String × Nat)
  breakdown : List (List String × List String)
deriving DecidableEq, Repr

/-- The results computation of `display_quiz_results`: scores in
participant insertion order (`scores = {}` filled by iterating
`user_answers.items()`, lines 818-827), sorted by Python's stable `sorted`
with `reverse=True` (line 830), and one breakdown entry per question of the
current list (`for idx, q in enumerate(questions)`, line 858). -/
def compute_results (questions : List Question)
    (user_answers : List (String × List (Nat × String))) : QuizResults :=
  { leaderboard := sortPairsDesc (user_answers.map (fun u => (u.1, score_user questions u.2)))
    breakdown := questions.enum.map (fun p => question_breakdown user_answers p.1 p.2) }

/-- The per-channel session data that the results computation reads
(`state["questions"]` and `state["user_answers"]`). -/
structure SessionState where
  questions : List Question
  user_answers : List (String × List (Nat × String))

/-- The module-level `QUIZ_STATE` dict, as a map from channel id to the
session stored there. -/
def QuizMap : Type := Nat → Option SessionState

/-- `display_quiz_results` (`src/app.py` lines 802-923) as a state
transition: on an absent session it returns without touching the map or
producing a report (lines 806-809); otherwise it computes and emits the
results report and removes the session (`QUIZ_STATE.pop`, line 922). -/
def display_quiz_results (m : QuizMap) (ch : Nat) : QuizMap × Option QuizResults :=
  match m ch with
  | none => (m, none)
  | some st =>
    (fun c => if c == ch then none else m c,
     some (compute_results st.questions st.user_answers))

/-- What the `/quiz_end` command reports back to its caller. -/
inductive EndReply
  | noQuizRunning
  | quizEnded (report : Option QuizResults)
deriving DecidableEq

/-- The `quiz_end` command handler (`src/app.py` lines 1133-1160), state
part: when the channel has no session it answers with the
"No quiz is running in this channel" notice and changes nothing (lines
1145-1151); otherwise it runs `display_quiz_results` and reports the quiz
ended. -/
def quiz_end (m : QuizMap) (ch : Nat) : QuizMap × EndReply :=
  if (m ch).isSome then
    let r := display_quiz_results m ch
    (r.1, EndReply.quizEnded r.2)
  else (m, EndReply.noQuizRunning)

/-- Python `int(x)` on a rational: truncation toward zero. -/
def pyTrunc (x : ℚ) : ℤ :=
  if 0 ≤ x then ⌊x⌋ else -⌊-x⌋

/-- Python float `%`: `a % b = a - b * (a // b)` with floored quotient, so
the result carries the sign of `b`. -/
def pyFloatMod (a b : ℚ) : ℚ :=
  a - b * (⌊a / b⌋ : ℤ)

/-- The remaining-time display of `/quiz_score` (`src/app.py` lines
1184-1186), as a function of `t = (end_time - utcnow).total_seconds()`
(timedeltas have microsecond resolution, so `t` is modelled as an exact
rational):
`minutes = max(0, int(t / 60))`, `seconds = max(0, int(t % 60))`. -/
def quiz_score_time_display (t : ℚ) : ℤ × ℤ :=
  (max 0 (pyTrunc (t / 60)), max 0 (pyTrunc (pyFloatMod t 60)))

/-- The two tasks that can race to end the same channel's session: the
per-session deadline watcher (`auto_end_quiz`) and a manual `/quiz_end`. -/
inductive EndTask
  | watcher
  | manual
deriving DecidableEq, Repr

/-- Combined state of the two racing end attempts on one channel.
`present` is whether the channel is still in `QUIZ_STATE`; `reports` counts
emitted results reports; `pcW`/`pcM` are the program counters of the
watcher and the manual end inside the end procedure. -/
structure RaceState where
  present : Bool
  reports : Nat
  pcW : Nat
  pcM : Nat
deriving DecidableEq, Repr

/-- One cooperative step of one end attempt, with atomic sections delimited
by the `await` suspension points of the code:
pc 0: the presence check (`QUIZ_STATE.get` / `in QUIZ_STATE`,
      `src/app.py` lines 788-791, 1145, 806-809) — on absence the
      procedure returns (pc 3);
pc 1: computing and sending the results report (lines 817-919; the
      `channel.send` calls are awaited, so control can interleave here);
pc 2: `QUIZ_STATE.pop(channel_id, None)` (line 922). -/
def endStep (pc : Nat) (s : RaceState) : Nat × RaceState :=
  match pc with
  | 0 => if s.present then (1, s) else (3, s)
  | 1 => (2, { s with reports := s.reports + 1 })
  | 2 => (3, { s with present := false })
  | pc => (pc, s)

/-- Scheduler step: run one atomic section of the chosen task. -/
def raceStep (s : RaceState) (t : EndTask) : RaceState :=
  match t with
  | EndTask.watcher =>
    let r := endStep s.pcW s
    { r.2 with pcW := r.1 }
  | EndTask.manual =>
    let r := endStep s.pcM s
    { r.2 with pcM := r.1 }

/-- Run a whole interleaving schedule. -/
def raceRun (s : RaceState) : List EndTask → RaceState
  | [] => s
  | t :: ts => raceRun (raceStep s t) ts

/-- Initial race state: session present, no report yet, both tasks at their
presence check. -/
def raceInit : RaceState :=
  { present := true, reports := 0, pcW := 0, pcM := 0 }

/-- Running a schedule decomposes over appending. -/
theorem raceRun_append (a b : List EndTask) : ∀ s : RaceState,
    raceRun s (a ++ b) = raceRun (raceRun s a) b := by
  induction a with
  | nil => intro s; rfl
  | cons t ts ih => intro s; simp only [List.cons_append, raceRun]; exact ih _

/-- Once the session is removed and neither task is inside its
report-then-remove section, no further scheduling emits another report. -/
theorem raceRun_after_done : ∀ (rest : List EndTask) (s : RaceState),
    s.present = false → (s.pcW = 0 ∨ s.pcW = 3) → (s.pcM = 0 ∨ s.pcM = 3) →
    (raceRun s rest).reports = s.reports ∧ (raceRun s rest).present = false := by
  intro rest
  induction rest with
  | nil => intro s h1 _ _; exact ⟨rfl, h1⟩
  | cons t ts ih =>
    intro s h1 h2 h3
    cases t with
    | watcher =>
      rcases h2 with h2 | h2 <;>
        simp only [raceRun, raceStep, endStep, h2, h1, Bool.false_eq_true, if_false] <;>
        exact ih _ rfl (Or.inr rfl) h3
    | manual =>
      rcases h3 with h3 | h3 <;>
        simp only [raceRun, raceStep, endStep, h3, h1, Bool.false_eq_true, if_false] <;>
        exact ih _ rfl h2 (Or.inr rfl)

/-- Claim C9, counterexample: the claim says no interleaving of the
deadline watcher and a manual end lets both pass the presence check and
process the session twice.  In the code, however, the presence check
(`src/app.py` lines 806-809) and the removal (`QUIZ_STATE.pop`, line 922)
are separated by awaited `channel.send` calls, so the strict-alternation
schedule below lets both tasks pass the check and both emit a results
report: the session is processed twice. -/
theorem end_race_double_processing_counterexample :
    (raceRun raceInit [EndTask.watcher, EndTask.manual, EndTask.watcher,
        EndTask.manual, EndTask.watcher, EndTask.manual]).reports = 2
  ∧ ¬ (∀ sched : List EndTask, (raceRun raceInit sched).reports ≤ 1) := by
  refine ⟨by decide, fun hall => ?_⟩
  have h := hall [EndTask.watcher, EndTask.manual, EndTask.watcher,
      EndTask.manual, EndTask.watcher, EndTask.manual]
  have h2 : (raceRun raceInit [EndTask.watcher, EndTask.manual, EndTask.watcher,
      EndTask.manual, EndTask.watcher, EndTask.manual]).reports = 2 := by decide
  omega

/-- Claim C9, amended: when one end attempt runs its whole
check-report-remove sequence without the other interleaving, exactly one
results report is ever emitted — the other attempt observes absence and
returns, no matter how it is scheduled afterwards. -/
theorem end_race_serial_exactly_once (rest : List EndTask) :
    (raceRun raceInit ([EndTask.watcher, EndTask.watcher, EndTask.watcher] ++ rest)).reports = 1
  ∧ (raceRun raceInit ([EndTask.manual, EndTask.manual, EndTask.manual] ++ rest)).reports = 1 := by
  constructor
  · rw [raceRun_append]
    have h := raceRun_after_done rest
        (raceRun raceInit [EndTask.watcher, EndTask.watcher, EndTask.watcher])
        (by decide) (by decide) (by decide)
    rw [h.1]; decide
  · rw [raceRun_append]
    have h := raceRun_after_done rest
        (raceRun raceInit [EndTask.manual, EndTask.manual, EndTask.manual])
        (by decide) (by decide) (by decide)
    rw [h.1]; decide

/-- Claim C4: ending is idempotent.  A first `end` on a live session emits
the results report and removes the session; after that, a second
`display_quiz_results` performs no state change and produces no report,
and a second `/quiz_end` leaves the map untouched and answers with the
"no quiz is running" notice (an absent indication, not an exception and
not a second report). -/
theorem display_quiz_results_absent (m : QuizMap) (ch : Nat) (h : m ch = none) :
    display_quiz_results m ch = (m, none) := by
  simp only [display_quiz_results, h]

theorem quiz_end_absent (m : QuizMap) (ch : Nat) (h : m ch = none) :
    quiz_end m ch = (m, EndReply.noQuizRunning) := by
  simp [quiz_end, h]

theorem quiz_end_idempotent (m : QuizMap) (ch : Nat) (st : SessionState)
    (h : m ch = some st) :
    (display_quiz_results m ch).2 = some (compute_results st.questions st.user_answers)
  ∧ (display_quiz_results m ch).1 ch = none
  ∧ display_quiz_results (display_quiz_results m ch).1 ch = ((display_quiz_results m ch).1, none)
  ∧ quiz_end (display_quiz_results m ch).1 ch = ((display_quiz_results m ch).1, EndReply.noQuizRunning) := by
  have hpair : display_quiz_results m ch
      = (fun c => if c == ch then none else m c,
         some (compute_results st.questions st.user_answers)) := by
    simp only [display_quiz_results, h]
  have hmap : (display_quiz_results m ch).1 ch = none := by
    rw [hpair]; simp
  exact ⟨by rw [hpair], hmap,
    display_quiz_results_absent _ ch hmap, quiz_end_absent _ ch hmap⟩

/-- Witness for C4 at a concrete map holding one session on channel 0. -/
theorem quiz_end_idempotent_witness :
    (display_quiz_results (fun c => if c == 0 then some ⟨[], []⟩ else none) 0).2
      = some (compute_results [] [])
  ∧ (display_quiz_results (fun c => if c == 0 then some ⟨[], []⟩ else none) 0).1 0 = none
  ∧ display_quiz_results
      (display_quiz_results (fun c => if c == 0 then some ⟨[], []⟩ else none) 0).1 0
      = ((display_quiz_results (fun c => if c == 0 then some ⟨[], []⟩ else none) 0).1, none)
  ∧ quiz_end (display_quiz_results (fun c => if c == 0 then some ⟨[], []⟩ else none) 0).1 0
      = ((display_quiz_results (fun c => if c == 0 then some ⟨[], []⟩ else none) 0).1,
         EndReply.noQuizRunning) :=
  quiz_end_idempotent (fun c => if c == 0 then some ⟨[], []⟩ else none) 0 ⟨[], []⟩ rfl

/-- Claim C8: the remaining time shown by `/quiz_score` once the deadline
has passed.  At `t = deadline - now = -10` seconds the code displays
0 minutes and 50 seconds — not the zero the spec requires — because
Python's floored float `%` makes `int(t % 60) = 50`; the `max(0, ...)`
clamps show the zero display was the intent.  Before the deadline
(second conjunct, `t = 130.5` seconds) the display is the floor of the
remaining seconds, as specified. -/
theorem quiz_score_remaining_time_bug :
    quiz_score_time_display (-10) = (0, 50)
  ∧ quiz_score_time_display (261 / 2) = (2, 10)
  ∧ ((0 : ℤ) * 60 + 50 ≠ 0) := by
  refine ⟨?_, ?_, by omega⟩ <;>
    norm_num [quiz_score_time_display, pyTrunc, pyFloatMod]

/-- A list is a boolean prefix of itself followed by anything. -/
theorem isPrefixOf_append_self (l t : List Char) : l.isPrefixOf (l ++ t) = true := by
  induction l with
  | nil => simp
  | cons c cs ih =>
    simp only [List.cons_append, List.isPrefixOf_cons₂_self]
    exact ih

/-- Dropping while `p` keeps a head that fails `p`. -/
theorem dropWhile_cons_false (p : Char → Bool) (c : Char) (t : List Char)
    (h : p c = false) : (c :: t).dropWhile p = c :: t := by
  rw [List.dropWhile_cons, h]; simp

/-- If `a ++ b` is a boolean prefix of `l`, so is `a`. -/
theorem isPrefixOf_of_append_left (a b l : List Char)
    (h : (a ++ b).isPrefixOf l = true) : a.isPrefixOf l = true := by
  induction a generalizing l with
  | nil => simp
  | cons x xs ih =>
    cases l with
    | nil => simp at h
    | cons y ys =>
      rw [List.cons_append, List.isPrefixOf_cons₂] at h
      rw [List.isPrefixOf_cons₂]
      simp only [Bool.and_eq_true] at h ⊢
      exact ⟨h.1, ih ys h.2⟩

/-- If dropping leading characters satisfying `p` changes nothing, the head
does not satisfy `p`. -/
theorem head_false_of_dropWhile_eq_self (p : Char → Bool) (c : Char) (t : List Char)
    (h : (c :: t).dropWhile p = c :: t) : p c = false := by
  cases hp : p c with
  | false => rfl
  | true =>
    rw [List.dropWhile_cons, hp, if_pos rfl] at h
    have hlen := (List.dropWhile_sublist (l := t) p).length_le
    rw [h] at hlen
    simp at hlen

/-- `pyStrip` is the identity on a list with no leading and no trailing
whitespace. -/
theorem pyStrip_eq_self (s : List Char)
    (hfront : s.dropWhile pyWS = s) (hback : s.reverse.dropWhile pyWS = s.reverse) :
    pyStrip s = s := by
  unfold pyStrip
  rw [hfront, hback, List.reverse_reverse]

/-- Stripping a whitespace-free list wrapped in single newlines recovers
the list. -/
theorem pyStrip_newline_wrap (text : List Char)
    (hfront : text.dropWhile pyWS = text)
    (hback : text.reverse.dropWhile pyWS = text.reverse) :
    pyStrip ('\n' :: (text ++ ['\n'])) = text := by
  unfold pyStrip
  rw [List.dropWhile_cons, show pyWS '\n' = true from rfl, if_pos rfl]
  cases text with
  | nil => decide
  | cons c t =>
    have hc : pyWS c = false := head_false_of_dropWhile_eq_self pyWS c t hfront
    rw [List.cons_append, dropWhile_cons_false pyWS c (t ++ ['\n']) hc]
    have hrev : (c :: (t ++ ['\n'])).reverse = '\n' :: (c :: t).reverse := by simp
    rw [hrev, List.dropWhile_cons, show pyWS '\n' = true from rfl, if_pos rfl, hback,
      List.reverse_reverse]

/-- Claim C7, amended: for a reply that is already stripped and not itself
fenced, wrapping it in a code fence whose language tag is `json` — or in a
bare fence with no tag — yields, after the generator's fence stripping,
exactly the same character sequence as the unfenced reply, so the two parse
to the same questions.  (The claim's "any language tag" fails: only the
literal `json` tag is handled, see the counterexample.) -/
theorem fenced_json_reply_parses_like_unfenced (text : List Char)
    (hfront : text.dropWhile pyWS = text)
    (hback : text.reverse.dropWhile pyWS = text.reverse)
    (hnof1 : ("```".toList).isPrefixOf text = false)
    (hnof2 : ("```".toList).isSuffixOf text = false)
    (tag : List Char) (htag : tag = "json".toList ∨ tag = []) :
    strip_code_fence (fencedBlock tag text) = text
  ∧ strip_code_fence text = text := by
  have hnof7 : ("```json".toList).isPrefixOf text = false := by
    cases h : ("```json".toList).isPrefixOf text with
    | false => rfl
    | true =>
      have := isPrefixOf_of_append_left ("```".toList) ("json".toList) text h
      rw [hnof1] at this; cases this
  have hsuffix : ("```".toList).isSuffixOf ('\n' :: (text ++ '\n' :: "```".toList)) = true := by
    unfold List.isSuffixOf
    have h : ('\n' :: (text ++ '\n' :: "```".toList)).reverse
        = ("```".toList).reverse ++ ('\n' :: (text ++ ['\n'])).reverse := by
      simp
    rw [h]
    exact isPrefixOf_append_self _ _
  have htake : ('\n' :: (text ++ '\n' :: "```".toList)).take
      (('\n' :: (text ++ '\n' :: "```".toList)).length - 3)
      = '\n' :: (text ++ ['\n']) := by
    have hsplit : '\n' :: (text ++ '\n' :: "```".toList)
        = ('\n' :: (text ++ ['\n'])) ++ "```".toList := by simp
    rw [hsplit]
    apply List.take_left'
    simp
  have hnof3mid : ("```".toList).isPrefixOf ('\n' :: (text ++ '\n' :: "```".toList)) = false := by
    rw [show ("```".toList : List Char) = '`' :: "``".toList from rfl, List.isPrefixOf_cons₂]
    simp
  constructor
  · -- the fenced side
    rcases htag with rfl | rfl
    · have hshape : fencedBlock "json".toList text
          = "```json".toList ++ ('\n' :: (text ++ '\n' :: "```".toList)) := rfl
      have hstrip0 : pyStrip ("```json".toList ++ ('\n' :: (text ++ '\n' :: "```".toList)))
          = "```json".toList ++ ('\n' :: (text ++ '\n' :: "```".toList)) := by
        apply pyStrip_eq_self
        · exact dropWhile_cons_false pyWS '`' _ rfl
        · have h : ("```json".toList ++ ('\n' :: (text ++ '\n' :: "```".toList))).reverse
              = '`' :: ("```json".toList ++ ('\n' :: (text ++ ['\n', '`', '`']))).reverse := by
            simp
          rw [h]
          exact dropWhile_cons_false pyWS '`' _ rfl
      rw [hshape]
      simp only [strip_code_fence, hstrip0, isPrefixOf_append_self, if_true,
        List.drop_left' (show ("```json".toList).length = 7 from rfl),
        hnof3mid, Bool.false_eq_true, if_false, hsuffix, htake]
      exact pyStrip_newline_wrap text hfront hback
    · have hshape : fencedBlock [] text
          = "```".toList ++ ('\n' :: (text ++ '\n' :: "```".toList)) := rfl
      have hstrip0 : pyStrip ("```".toList ++ ('\n' :: (text ++ '\n' :: "```".toList)))
          = "```".toList ++ ('\n' :: (text ++ '\n' :: "```".toList)) := by
        apply pyStrip_eq_self
        · exact dropWhile_cons_false pyWS '`' _ rfl
        · have h : ("```".toList ++ ('\n' :: (text ++ '\n' :: "```".toList))).reverse
              = '`' :: ("```".toList ++ ('\n' :: (text ++ ['\n', '`', '`']))).reverse := by
            simp
          rw [h]
          exact dropWhile_cons_false pyWS '`' _ rfl
      have hnof7f : ("```json".toList).isPrefixOf
          ("```".toList ++ ('\n' :: (text ++ '\n' :: "```".toList))) = false := by
        rw [show ("```".toList ++ ('\n' :: (text ++ '\n' :: "```".toList)) : List Char)
            = '`' :: ('`' :: '`' :: '\n' :: (text ++ '\n' :: "```".toList)) from rfl,
          show ("```json".toList : List Char)
            = '`' :: '`' :: '`' :: 'j' :: "son".toList from rfl]
        rw [List.isPrefixOf_cons₂, List.isPrefixOf_cons₂, List.isPrefixOf_cons₂,
          List.isPrefixOf_cons₂]
        simp
      rw [hshape]
      simp only [strip_code_fence, hstrip0, hnof7f, Bool.false_eq_true, if_false,
        isPrefixOf_append_self, if_true,
        List.drop_left' (show ("```".toList).length = 3 from rfl),
        hsuffix, htake]
      exact pyStrip_newline_wrap text hfront hback
  · -- the unfenced side
    simp only [strip_code_fence, pyStrip_eq_self text hfront hback, hnof7, hnof1, hnof2,
      Bool.false_eq_true, if_false]

/-- Witness for the amended C7 at the JSON array text `[]` with tag `json`
and with no tag. -/
theorem fenced_json_reply_parses_like_unfenced_witness :
    strip_code_fence (fencedBlock "json".toList "[]".toList) = "[]".toList
  ∧ strip_code_fence (fencedBlock [] "[]".toList) = "[]".toList := by
  refine ⟨?_, ?_⟩
  · exact (fenced_json_reply_parses_like_unfenced "[]".toList (by decide) (by decide)
      (by decide) (by decide) "json".toList (Or.inl rfl)).1
  · exact (fenced_json_reply_parses_like_unfenced "[]".toList (by decide) (by decide)
      (by decide) (by decide) [] (Or.inr rfl)).1

/-- Claim C7, counterexample: a fence with the language tag `javascript`
around the JSON array `[]` is NOT reduced to the array text — the code only
strips the literal leading "```json" or a bare "```" — so the parser is
handed "javascript\n[]" (which does not even begin with a JSON array
opener) instead of "[]". -/
theorem fenced_other_tag_counterexample :
    strip_code_fence (fencedBlock "javascript".toList "[]".toList)
      = "javascript\n[]".toList
  ∧ strip_code_fence (fencedBlock "javascript".toList "[]".toList)
      ≠ strip_code_fence "[]".toList
  ∧ (strip_code_fence (fencedBlock "javascript".toList "[]".toList)).head? = some 'j' := by
  refine ⟨by decide, by decide, by decide⟩

/-- Inserting into the sorted accumulator is a permutation of consing. -/
theorem insertPairDesc_perm {α : Type} (x : α × Nat) (l : List (α × Nat)) :
    (insertPairDesc x l).Perm (x :: l) := by
  induction l with
  | nil => exact List.Perm.refl _
  | cons y ys ih =>
    by_cases h : y.2 > x.2
    · rw [insertPairDesc, if_pos h]
      exact (ih.cons y).trans (List.Perm.swap x y ys)
    · rw [insertPairDesc, if_neg h]

/-- The stable sort permutes its input. -/
theorem sortPairsDesc_perm {α : Type} (l : List (α × Nat)) :
    (sortPairsDesc l).Perm l := by
  induction l with
  | nil => exact List.Perm.refl _
  | cons x xs ih =>
    exact (insertPairDesc_perm x (sortPairsDesc xs)).trans (ih.cons x)

/-- Inserting preserves the descending-pairwise property. -/
theorem insertPairDesc_pairwise {α : Type} (x : α × Nat) (l : List (α × Nat))
    (h : l.Pairwise (fun a b => b.2 ≤ a.2)) :
    (insertPairDesc x l).Pairwise (fun a b => b.2 ≤ a.2) := by
  induction l with
  | nil => simp [insertPairDesc]
  | cons y ys ih =>
    rcases List.pairwise_cons.mp h with ⟨hy, hys⟩
    by_cases hgt : y.2 > x.2
    · rw [insertPairDesc, if_pos hgt]
      refine List.pairwise_cons.mpr ⟨?_, ih hys⟩
      intro z hz
      have hmem := (insertPairDesc_perm x ys).mem_iff.mp hz
      rcases List.mem_cons.mp hmem with rfl | hmem
      · exact Nat.le_of_lt hgt
      · exact hy z hmem
    · rw [insertPairDesc, if_neg hgt]
      push_neg at hgt
      refine List.pairwise_cons.mpr ⟨?_, h⟩
      intro z hz
      rcases List.mem_cons.mp hz with rfl | hz
      · exact hgt
      · exact Nat.le_trans (hy z hz) hgt

/-- The stable sort is descending in the score component. -/
theorem sortPairsDesc_sorted {α : Type} (l : List (α × Nat)) :
    (sortPairsDesc l).Pairwise (fun a b => b.2 ≤ a.2) := by
  induction l with
  | nil => simp [sortPairsDesc]
  | cons x xs ih => exact insertPairDesc_pairwise x (sortPairsDesc xs) ih

/-- Stability of the insertion step: among entries of any fixed score `s`,
inserting keeps the newly inserted element first exactly when it has that
score, and never reorders the others. -/
theorem insertPairDesc_filter {α : Type} (x : α × Nat) (l : List (α × Nat)) (s : Nat) :
    (insertPairDesc x l).filter (fun p => p.2 == s)
      = if x.2 == s then x :: l.filter (fun p => p.2 == s)
        else l.filter (fun p => p.2 == s) := by
  induction l with
  | nil => cases hx : x.2 == s <;> simp [insertPairDesc, List.filter_cons, hx]
  | cons y ys ih =>
    by_cases hgt : y.2 > x.2
    · rw [insertPairDesc, if_pos hgt]
      by_cases hx : (x.2 == s) = true
      · have hxs : x.2 = s := by simpa using hx
        have hy : (y.2 == s) = false := by
          simp only [beq_eq_false_iff_ne, ne_eq]
          omega
        simp only [List.filter_cons, hy, Bool.false_eq_true, if_false, ih, hx, if_true]
      · have hxf : (x.2 == s) = false := by simpa using hx
        simp only [List.filter_cons, ih, hxf, Bool.false_eq_true, if_false]
    · rw [insertPairDesc, if_neg hgt]
      by_cases hx : (x.2 == s) = true
      · simp only [List.filter_cons, hx, if_true]
      · have hxf : (x.2 == s) = false := by simpa using hx
        simp only [List.filter_cons, hxf, Bool.false_eq_true, if_false]

/-- Stability of the stable sort: for every score `s`, the entries with
that score appear in the sorted output exactly in their input order. -/
theorem sortPairsDesc_stable {α : Type} (l : List (α × Nat)) (s : Nat) :
    (sortPairsDesc l).filter (fun p => p.2 == s) = l.filter (fun p => p.2 == s) := by
  induction l with
  | nil => rfl
  | cons x xs ih =>
    rw [sortPairsDesc, insertPairDesc_filter, List.filter_cons]
    cases hx : x.2 == s
    · simp only [Bool.false_eq_true, if_false, ih]
    · simp only [if_true, ih]

/-- Claim C5: the leaderboard orders participants by score descending, and
participants with equal scores keep the order of the `user_answers` map —
Python dict insertion order, which is the order in which participants
first submitted any answer (`state["user_answers"][user_id] = {}` on first
submission, `src/app.py` lines 124-126 and 1107-1109).  Stated as: the
leaderboard is a permutation of the scores in first-answer order, its
scores are descending, within each score the original order is preserved,
and on the concrete scenario of the claim (p1 scores 2/3 answering first,
p2 scores 2/3, p3 scores 3/3) the order is p3, p1, p2. -/
theorem leaderboard_sorted_stable (questions : List Question)
    (user_answers : List (String × List (Nat × String))) :
    ((compute_results questions user_answers).leaderboard).Perm
        (user_answers.map (fun u => (u.1, score_user questions u.2)))
  ∧ ((compute_results questions user_answers).leaderboard).Pairwise (fun a b => b.2 ≤ a.2)
  ∧ (∀ s : Nat, ((compute_results questions user_answers).leaderboard).filter
          (fun p => p.2 == s)
        = (user_answers.map (fun u => (u.1, score_user questions u.2))).filter
          (fun p => p.2 == s))
  ∧ (compute_results
      [{ q := "q1", options := ["o1", "o2", "o3", "o4"], answer := "A", explain := "" },
       { q := "q2", options := ["o1", "o2", "o3", "o4"], answer := "B", explain := "" },
       { q := "q3", options := ["o1", "o2", "o3", "o4"], answer := "C", explain := "" }]
      [("p1", [(0, "A"), (1, "B"), (2, "A")]),
       ("p2", [(0, "A"), (1, "B"), (2, "B")]),
       ("p3", [(0, "A"), (1, "B"), (2, "C")])]).leaderboard
      = [("p3", 3), ("p1", 2), ("p2", 2)] := by
  refine ⟨?_, ?_, ?_, by decide⟩
  · exact sortPairsDesc_perm _
  · exact sortPairsDesc_sorted _
  · intro s; exact sortPairsDesc_stable _ s

/-- Out-of-range entries contribute nothing to a participant's score. -/
theorem score_user_in_range (questions : List Question) (answers : List (Nat × String)) :
    score_user questions (answers.filter (fun p => decide (p.1 < questions.length)))
      = score_user questions answers := by
  unfold score_user
  rw [List.countP_filter]
  apply List.countP_congr
  intro x _
  cases hg : questions.get? x.1 with
  | none => simp [hg]
  | some qq =>
    have hlt : x.1 < questions.length := by
      cases Nat.lt_or_ge x.1 questions.length with
      | inl h => exact h
      | inr h => rw [List.get?_eq_none.mpr h] at hg; cases hg
    simp [hg, hlt]

/-- Looking up an in-range question index is unaffected by removing the
out-of-range entries. -/
theorem lookup_filter_in_range (len idx : Nat) (hidx : idx < len)
    (ans : List (Nat × String)) :
    (ans.filter (fun p => decide (p.1 < len))).lookup idx = ans.lookup idx := by
  induction ans with
  | nil => rfl
  | cons a t ih =>
    by_cases hk : a.1 < len
    · rw [List.filter_cons, if_pos (by simpa using hk)]
      cases a with
      | mk k v => rw [List.lookup_cons, List.lookup_cons, ih]
    · rw [List.filter_cons, if_neg (by simpa using hk)]
      cases a with
      | mk k v =>
        have hne : (idx == k) = false := by
          simp only [beq_eq_false_iff_ne, ne_eq]
          simp only [not_lt] at hk
          omega
        rw [List.lookup_cons, hne, ih]

/-- Filtering each participant's answers to the in-range indices does not
change who is listed for an in-range question. -/
theorem users_filter_lookup_eq (len idx : Nat) (hidx : idx < len)
    (F : Option String → Bool) (ua : List (String × List (Nat × String))) :
    ((ua.map (fun u => (u.1, u.2.filter (fun p => decide (p.1 < len))))).filter
        (fun u => F (u.2.lookup idx))).map (fun u => u.1)
      = (ua.filter (fun u => F (u.2.lookup idx))).map (fun u => u.1) := by
  induction ua with
  | nil => rfl
  | cons u t ih =>
    rw [List.map_cons, List.filter_cons, List.filter_cons]
    have hl : ((u.1, u.2.filter (fun p => decide (p.1 < len))) :
        String × List (Nat × String)).2.lookup idx = u.2.lookup idx :=
      lookup_filter_in_range len idx hidx u.2
    rw [hl]
    cases F (u.2.lookup idx) <;> simp [ih]

/-- Claim C10: during end-of-session scoring, stored answers whose question
index is outside the current question list are silently skipped.  Removing
them changes neither any participant's score, nor the leaderboard, nor any
per-question correct/incorrect breakdown; and the breakdown only covers the
indices of the current question list (one entry per question).  The model
mirrors the code's guards (`if q_idx < len(questions)` at line 822 and
`if idx in answers` at line 878), so no out-of-range access occurs. -/
theorem out_of_range_answers_ignored (questions : List Question)
    (user_answers : List (String × List (Nat × String))) :
    compute_results questions
        (user_answers.map (fun u =>
          (u.1, u.2.filter (fun p => decide (p.1 < questions.length)))))
      = compute_results questions user_answers
  ∧ (compute_results questions user_answers).breakdown.length = questions.length := by
  constructor
  · unfold compute_results
    refine congrArg₂ QuizResults.mk ?_ ?_
    · rw [List.map_map]
      refine congrArg sortPairsDesc ?_
      apply List.map_congr_left
      intro u _
      show (u.1, score_user questions (u.2.filter (fun p => decide (p.1 < questions.length))))
          = (u.1, score_user questions u.2)
      rw [score_user_in_range]
    · apply List.map_congr_left
      intro p hp
      have hidx : p.1 < questions.length := by
        have := List.fst_lt_add_of_mem_enumFrom (n := 0) (l := questions) hp
        omega
      unfold question_breakdown
      refine congrArg₂ Prod.mk ?_ ?_
      · exact users_filter_lookup_eq questions.length p.1 hidx
          (fun o => match o with
            | some c => c == pyUpper (pyStripStr p.2.answer)
            | none => false)
          user_answers
      · exact users_filter_lookup_eq questions.length p.1 hidx
          (fun o => match o with
            | some c => !(c == pyUpper (pyStripStr p.2.answer))
            | none => false)
          user_answers
  · unfold compute_results
    simp [List.enum]

/-- Zipping a list with its own image under `f` pairs each element with its
image. -/
theorem zip_self_map {α β : Type} (l : List α) (f : α → β) :
    l.zip (l.map f) = l.map (fun a => (a, f a)) := by
  induction l with
  | nil => rfl
  | cons x xs ih => simp [ih]

/-- The duplicate test of the scan, rewritten from the `zip` over the
accepted questions and their stored topics to a direct test over the
accepted questions, valid when the stored topics are exactly the accepted
questions' topics. -/
theorem dedup_test_eq (fr : String → String → Nat) (q : Question) (u : List Question) :
    ((u.zip (u.map extract_topic_from_question)).any
        (fun e => are_questions_similar fr q e.1 (extract_topic_from_question q) e.2))
      = u.any (fun a => are_questions_similar fr q a
          (extract_topic_from_question q) (extract_topic_from_question a)) := by
  rw [zip_self_map]
  induction u with
  | nil => rfl
  | cons x xs ih => simp [List.any_cons, ih]

/-- Scanning a concatenation scans the parts in order. -/
theorem dedupAux_append (fr : String → String → Nat) (v w : List Question) :
    ∀ (u : List Question) (t : List String),
      dedupAux fr u t (v ++ w)
        = dedupAux fr (dedupAux fr u t v).1 (dedupAux fr u t v).2 w := by
  induction v with
  | nil => intro u t; rfl
  | cons q rest ih =>
    intro u t
    rw [List.cons_append, dedupAux, dedupAux]
    by_cases h : (u.zip t).any
        (fun e => are_questions_similar fr q e.1 (extract_topic_from_question q) e.2)
    · rw [if_pos h, if_pos h, ih]
    · rw [if_neg h, if_neg h, ih]

/-- The accepted questions extend the accumulator by a subsequence of the
scanned candidates. -/
theorem dedupAux_sublist (fr : String → String → Nat) (v : List Question) :
    ∀ (u : List Question) (t : List String),
      ∃ w, (dedupAux fr u t v).1 = u ++ w ∧ w.Sublist v := by
  induction v with
  | nil => intro u t; exact ⟨[], by simp [dedupAux], List.nil_sublist []⟩
  | cons q rest ih =>
    intro u t
    rw [dedupAux]
    by_cases h : (u.zip t).any
        (fun e => are_questions_similar fr q e.1 (extract_topic_from_question q) e.2)
    · rw [if_pos h]
      obtain ⟨w, hw, hsub⟩ := ih u t
      exact ⟨w, hw, hsub.cons q⟩
    · rw [if_neg h]
      obtain ⟨w, hw, hsub⟩ := ih (u ++ [q]) (t ++ [extract_topic_from_question q])
      exact ⟨q :: w, by rw [hw]; simp, hsub.cons₂ q⟩

/-- The stored topic list is always the accepted questions' topics, in
order. -/
theorem dedupAux_topics (fr : String → String → Nat) (v : List Question) :
    ∀ (u : List Question) (t : List String),
      t = u.map extract_topic_from_question →
      (dedupAux fr u t v).2 = (dedupAux fr u t v).1.map extract_topic_from_question := by
  induction v with
  | nil => intro u t ht; simpa [dedupAux] using ht
  | cons q rest ih =>
    intro u t ht
    rw [dedupAux]
    by_cases h : (u.zip t).any
        (fun e => are_questions_similar fr q e.1 (extract_topic_from_question q) e.2)
    · rw [if_pos h]; exact ih u t ht
    · rw [if_neg h]
      exact ih (u ++ [q]) (t ++ [extract_topic_from_question q]) (by simp [ht])

/-- Claim C3: `deduplicate_questions` performs a single left-to-right scan.
Its accepted list is a subsequence of the input in input order, its topic
list is exactly the accepted questions' topics in the same order, and
extending the input by one candidate appends that candidate if and only if
the similarity detector reports it similar to none of the already-accepted
questions (each paired with its topic) — so the first occurrence of a topic
wins and later near-duplicates are dropped. -/
theorem deduplicate_scan_characterization (fr : String → String → Nat)
    (qs : List Question) :
    (deduplicate_questions fr qs).1.Sublist qs
  ∧ (deduplicate_questions fr qs).2
      = (deduplicate_questions fr qs).1.map extract_topic_from_question
  ∧ (∀ q : Question, deduplicate_questions fr (qs ++ [q]) =
      (if ((deduplicate_questions fr qs).1.zip (deduplicate_questions fr qs).2).any
          (fun e => are_questions_similar fr q e.1 (extract_topic_from_question q) e.2)
       then deduplicate_questions fr qs
       else ((deduplicate_questions fr qs).1 ++ [q],
             (deduplicate_questions fr qs).2 ++ [extract_topic_from_question q]))) := by
  refine ⟨?_, ?_, ?_⟩
  · obtain ⟨w, hw, hsub⟩ := dedupAux_sublist fr qs [] []
    rw [deduplicate_questions, hw]; simpa using hsub
  · exact dedupAux_topics fr qs [] [] rfl
  · intro q
    rw [deduplicate_questions, deduplicate_questions, dedupAux_append]
    by_cases h : ((dedupAux fr [] [] qs).1.zip (dedupAux fr [] [] qs).2).any
        (fun e => are_questions_similar fr q e.1 (extract_topic_from_question q) e.2)
    · rw [if_pos h, dedupAux, if_pos h, dedupAux]
    · rw [if_neg h, dedupAux, if_neg h, dedupAux]

/-- The relation "the later question `b` is reported not similar to the
earlier question `a`" used to state diversity of the accepted set. -/
def notSimilarLater (fr : String → String → Nat) (a b : Question) : Prop :=
  are_questions_similar fr b a
    (extract_topic_from_question b) (extract_topic_from_question a) = false

/-- The accepted set is diverse: every accepted question was reported not
similar to each question accepted before it. -/
theorem dedupAux_pairwise (fr : String → String → Nat) (v : List Question) :
    ∀ (u : List Question),
      u.Pairwise (notSimilarLater fr) →
      (dedupAux fr u (u.map extract_topic_from_question) v).1.Pairwise (notSimilarLater fr) := by
  induction v with
  | nil => intro u hu; simpa [dedupAux] using hu
  | cons q rest ih =>
    intro u hu
    rw [dedupAux, dedup_test_eq]
    cases h : u.any (fun a => are_questions_similar fr q a
        (extract_topic_from_question q) (extract_topic_from_question a)) with
    | true =>
      simp only [if_true]
      exact ih u hu
    | false =>
      simp only [Bool.false_eq_true, if_false]
      have hmap : (u.map extract_topic_from_question) ++ [extract_topic_from_question q]
          = (u ++ [q]).map extract_topic_from_question := by simp
      rw [hmap]
      apply ih
      rw [List.pairwise_append]
      refine ⟨hu, List.pairwise_singleton _ _, ?_⟩
      intro a ha b hb
      rw [List.mem_singleton] at hb
      subst hb
      simpa [notSimilarLater] using (List.any_eq_false.mp h) a ha

/-- Scanning candidates that are all mutually non-similar, and non-similar
to everything in the accumulator, accepts them all. -/
theorem dedupAux_accepts_all (fr : String → String → Nat) (v : List Question) :
    ∀ (u : List Question),
      (∀ b ∈ v, ∀ a ∈ u, are_questions_similar fr b a
          (extract_topic_from_question b) (extract_topic_from_question a) = false) →
      v.Pairwise (notSimilarLater fr) →
      dedupAux fr u (u.map extract_topic_from_question) v
        = (u ++ v, (u ++ v).map extract_topic_from_question) := by
  induction v with
  | nil => intro u _ _; simp [dedupAux]
  | cons q rest ih =>
    intro u hall hpw
    rw [dedupAux, dedup_test_eq]
    have hq : u.any (fun a => are_questions_similar fr q a
        (extract_topic_from_question q) (extract_topic_from_question a)) = false := by
      rw [List.any_eq_false]
      intro a ha
      simpa using hall q (List.mem_cons_self q rest) a ha
    rw [hq]
    simp only [Bool.false_eq_true, if_false]
    have hmap : (u.map extract_topic_from_question) ++ [extract_topic_from_question q]
        = (u ++ [q]).map extract_topic_from_question := by simp
    rw [hmap, ih (u ++ [q]) ?_ (List.Pairwise.of_cons hpw)]
    · simp
    · intro b hb a ha
      rcases List.mem_append.mp ha with ha | ha
      · exact hall b (List.mem_cons_of_mem q hb) a ha
      · rw [List.mem_singleton] at ha
        subst ha
        exact (List.pairwise_cons.mp hpw).1 b hb

/-- Claim C6: `deduplicate_questions` is idempotent — running it on its own
accepted list returns that list (and its topics) unchanged. -/
theorem deduplicate_idempotent (fr : String → String → Nat) (qs : List Question) :
    deduplicate_questions fr (deduplicate_questions fr qs).1 = deduplicate_questions fr qs := by
  have hpw : (deduplicate_questions fr qs).1.Pairwise (notSimilarLater fr) := by
    have := dedupAux_pairwise fr qs [] List.Pairwise.nil
    simpa [deduplicate_questions] using this
  have htop : (deduplicate_questions fr qs).2
      = (deduplicate_questions fr qs).1.map extract_topic_from_question :=
    dedupAux_topics fr qs [] [] rfl
  have h := dedupAux_accepts_all fr (deduplicate_questions fr qs).1 []
    (fun b _ a ha => absurd ha (List.not_mem_nil a)) hpw
  have h2 : deduplicate_questions fr (deduplicate_questions fr qs).1
      = ((deduplicate_questions fr qs).1,
         (deduplicate_questions fr qs).1.map extract_topic_from_question) := by
    rw [deduplicate_questions,
      show ([] : List String) = ([] : List Question).map extract_topic_from_question from rfl,
      h]
    simp
  rw [h2, ← htop]

/-- A list of length 4 is a literal 4-element list. -/
theorem length_four_eq : ∀ (l : List String), l.length = 4 →
    ∃ a b c d : String, l = [a, b, c, d]
  | [a, b, c, d], _ => ⟨a, b, c, d, rfl⟩
  | [], h => by simp at h
  | [_], h => by simp at h
  | [_, _], h => by simp at h
  | [_, _, _], h => by simp at h
  | _ :: _ :: _ :: _ :: _ :: _, h => by simp at h

/-- Core of the shuffle property: when exactly one pair of
`options_with_correctness` is marked correct, the shuffled question's
recomputed answer letter selects exactly that pair's text. -/
theorem shuffle_get_correct (qq : Question) (shuffled : List (String × Bool)) (x : String)
    (hfil : (options_with_correctness qq).filter (fun p => p.2) = [(x, true)])
    (hlen : (options_with_correctness qq).length = 4)
    (hperm : shuffled.Perm (options_with_correctness qq)) :
    (shuffle_quiz_options qq shuffled).options.get?
        (answer_index_of (shuffle_quiz_options qq shuffled).answer) = some x := by
  have hsf : shuffled.filter (fun p => p.2) = [(x, true)] := by
    have hpf := hperm.filter (fun p => p.2)
    rw [hfil] at hpf
    exact List.perm_singleton.mp hpf
  have hmem : (x, true) ∈ shuffled := by
    have hm : (x, true) ∈ shuffled.filter (fun p => p.2) := by
      rw [hsf]; exact List.mem_singleton_self _
    exact (List.mem_filter.mp hm).1
  set k := shuffled.findIdx (fun p => p.2) with hkdef
  have hk : k < shuffled.length :=
    List.findIdx_lt_length_of_exists ⟨(x, true), hmem, rfl⟩
  have hget : (fun p : String × Bool => p.2) shuffled[k] = true :=
    List.findIdx_getElem (w := hk)
  have helem : shuffled[k] = (x, true) := by
    have hm : shuffled[k] ∈ shuffled.filter (fun p => p.2) :=
      List.mem_filter.mpr ⟨List.getElem_mem hk, hget⟩
    rw [hsf] at hm
    exact List.mem_singleton.mp hm
  have hk4 : k < 4 := by
    have hl := hperm.length_eq
    rw [hlen] at hl
    omega
  have hidx : answer_index_of (String.mk [Char.ofNat ('A'.toNat + k)]) = k := by
    interval_cases k <;> decide
  show (shuffled.map (fun p => p.1)).get?
      (answer_index_of (String.mk [Char.ofNat ('A'.toNat + k)])) = some x
  rw [hidx, List.get?_eq_getElem?, List.getElem?_map, List.getElem?_eq_getElem hk, helem]
  rfl

/-- Claim C2: for a question with exactly 4 options and a valid answer
letter among A-D, the option text selected by the answer letter before
shuffling textually equals the option text selected by the shuffled
question's recomputed answer letter, for every permutation of the options
— including when several options share the same text, since the correct
option is tracked by its position marker, not by value. -/
theorem shuffle_preserves_correct_option (q : Question) (shuffled : List (String × Bool))
    (h4 : q.options.length = 4)
    (hans : q.answer = "A" ∨ q.answer = "B" ∨ q.answer = "C" ∨ q.answer = "D")
    (hperm : shuffled.Perm (options_with_correctness q)) :
    (shuffle_quiz_options q shuffled).options.get?
        (answer_index_of (shuffle_quiz_options q shuffled).answer)
      = q.options.get? (answer_index_of q.answer) := by
  obtain ⟨a, b, c, d, hopt⟩ := length_four_eq q.options h4
  have hlen : (options_with_correctness q).length = 4 := by
    rw [options_with_correctness, hopt]; rfl
  rcases hans with h | h | h | h
  · have hai : answer_index_of q.answer = 0 := by rw [h]; decide
    have howc : options_with_correctness q = [(a, true), (b, false), (c, false), (d, false)] := by
      rw [options_with_correctness, hopt, hai]; rfl
    have hfil : (options_with_correctness q).filter (fun p => p.2) = [(a, true)] := by
      rw [howc]; rfl
    rw [shuffle_get_correct q shuffled a hfil hlen hperm, hopt, hai]
    rfl
  · have hai : answer_index_of q.answer = 1 := by rw [h]; decide
    have howc : options_with_correctness q = [(a, false), (b, true), (c, false), (d, false)] := by
      rw [options_with_correctness, hopt, hai]; rfl
    have hfil : (options_with_correctness q).filter (fun p => p.2) = [(b, true)] := by
      rw [howc]; rfl
    rw [shuffle_get_correct q shuffled b hfil hlen hperm, hopt, hai]
    rfl
  · have hai : answer_index_of q.answer = 2 := by rw [h]; decide
    have howc : options_with_correctness q = [(a, false), (b, false), (c, true), (d, false)] := by
      rw [options_with_correctness, hopt, hai]; rfl
    have hfil : (options_with_correctness q).filter (fun p => p.2) = [(c, true)] := by
      rw [howc]; rfl
    rw [shuffle_get_correct q shuffled c hfil hlen hperm, hopt, hai]
    rfl
  · have hai : answer_index_of q.answer = 3 := by rw [h]; decide
    have howc : options_with_correctness q = [(a, false), (b, false), (c, false), (d, true)] := by
      rw [options_with_correctness, hopt, hai]; rfl
    have hfil : (options_with_correctness q).filter (fun p => p.2) = [(d, true)] := by
      rw [howc]; rfl
    rw [shuffle_get_correct q shuffled d hfil hlen hperm, hopt, hai]
    rfl

/-- Witness for C2: a question with duplicate option texts, answer "B",
and a concrete permutation of its option pairs. -/
theorem shuffle_preserves_correct_option_witness :
    (shuffle_quiz_options
        (Question.mk "dup" ["same", "same", "other", "same"] "B" "" none none)
        [("other", false), ("same", true), ("same", false), ("same", false)]).options.get?
      (answer_index_of (shuffle_quiz_options
        (Question.mk "dup" ["same", "same", "other", "same"] "B" "" none none)
        [("other", false), ("same", true), ("same", false), ("same", false)]).answer)
      = (Question.mk "dup" ["same", "same", "other", "same"] "B" "" none none).options.get?
        (answer_index_of
          (Question.mk "dup" ["same", "same", "other", "same"] "B" "" none none).answer) :=
  shuffle_preserves_correct_option
    (Question.mk "dup" ["same", "same", "other", "same"] "B" "" none none)
    [("other", false), ("same", true), ("same", false), ("same", false)]
    (by decide) (Or.inr (Or.inl rfl)) (by decide)

/-- Adding regenerated candidates never empties the accumulated set. -/
theorem add_non_dup_ne_nil (fr : String → String → Nat) (n : Nat) (v : List Question) :
    ∀ (uq : List Question) (ut : List String), uq ≠ [] → (add_non_dup fr n uq ut v).1 ≠ [] := by
  induction v with
  | nil => intro uq ut h; simpa [add_non_dup] using h
  | cons q rest ih =>
    intro uq ut h
    rw [add_non_dup]
    by_cases hd : (uq.zip ut).any
        (fun e => are_questions_similar fr q e.1 (extract_topic_from_question q) e.2)
    · rw [if_pos hd]; exact ih uq ut h
    · rw [if_neg hd]
      by_cases hn : n ≤ uq.length + 1
      · rw [if_pos hn]; simp
      · rw [if_neg hn]; exact ih (uq ++ [q]) _ (by simp)

/-- The regeneration rounds never empty the accumulated set. -/
theorem regen_go_ne_nil (fr : String → String → Nat) (resp : Nat → Option (List RawItem))
    (n : Nat) : ∀ (remaining k : Nat) (uq : List Question) (ut : List String),
    uq ≠ [] → (regen_go fr resp n remaining k uq ut).1 ≠ [] := by
  intro remaining
  induction remaining with
  | zero => intro k uq ut h; simpa [regen_go] using h
  | succ r ih =>
    intro k uq ut h
    rw [regen_go]
    by_cases hlen : uq.length < n
    · rw [if_pos hlen]
      cases hresp : resp k with
      | none => exact ih (k + 1) uq ut h
      | some items =>
        exact ih (k + 1) _ _ (add_non_dup_ne_nil fr n (validate_items items) uq ut h)
    · rw [if_neg hlen]; exact h

/-- Deduplicating a non-empty list accepts at least its first element. -/
theorem deduplicate_ne_nil (fr : String → String → Nat) (q : Question) (rest : List Question) :
    (deduplicate_questions fr (q :: rest)).1 ≠ [] := by
  rw [deduplicate_questions, dedupAux]
  have hcond : (([] : List Question).zip ([] : List String)).any
      (fun e => are_questions_similar fr q e.1 (extract_topic_from_question q) e.2) = false := rfl
  rw [hcond]
  simp only [Bool.false_eq_true, if_false, List.nil_append]
  obtain ⟨w, hw, _⟩ := dedupAux_sublist fr rest [q] [extract_topic_from_question q]
  rw [hw]
  simp

/-- Claim C1: termination behaviour of `generate_quiz` over every sequence
of question-source responses.  It returns `none` exactly when the very
first response fails to parse or yields zero valid (hence zero unique)
questions; otherwise the accumulated unique set is non-empty, and the call
returns exactly `targetCount` questions when the accumulation reaches the
target, or the whole non-empty partial accumulation when the bounded
regeneration rounds exhaust below the target. -/
theorem generate_quiz_termination (fr : String → String → Nat)
    (resp : Nat → Option (List RawItem)) (n : Nat) :
    (generate_quiz fr resp n = none ↔
      resp 0 = none ∨ ∃ data, resp 0 = some data ∧ validate_items data = [])
  ∧ ∀ data, resp 0 = some data → validate_items data ≠ [] →
      accumulated_unique fr resp n data ≠ []
      ∧ (n ≤ (accumulated_unique fr resp n data).length →
          generate_quiz fr resp n = some ((accumulated_unique fr resp n data).take n)
          ∧ ((accumulated_unique fr resp n data).take n).length = n)
      ∧ ((accumulated_unique fr resp n data).length < n →
          generate_quiz fr resp n = some (accumulated_unique fr resp n data)) := by
  have hmain : ∀ data, resp 0 = some data → validate_items data ≠ [] →
      accumulated_unique fr resp n data ≠ []
      ∧ (n ≤ (accumulated_unique fr resp n data).length →
          generate_quiz fr resp n = some ((accumulated_unique fr resp n data).take n)
          ∧ ((accumulated_unique fr resp n data).take n).length = n)
      ∧ ((accumulated_unique fr resp n data).length < n →
          generate_quiz fr resp n = some (accumulated_unique fr resp n data)) := by
    intro data hresp hvalid
    have hne : accumulated_unique fr resp n data ≠ [] := by
      obtain ⟨q, rest, hv⟩ : ∃ q rest, validate_items data = q :: rest := by
        cases hv : validate_items data with
        | nil => exact absurd hv hvalid
        | cons q rest => exact ⟨q, rest, rfl⟩
      unfold accumulated_unique regen_loop
      apply regen_go_ne_nil
      rw [hv]
      exact deduplicate_ne_nil fr q rest
    unfold accumulated_unique at hne ⊢
    refine ⟨hne, ?_, ?_⟩
    · intro hle
      constructor
      · simp only [generate_quiz, hresp]
        rw [if_neg (by simpa [List.isEmpty_iff] using hvalid), if_pos hle]
      · rw [List.length_take]
        omega
    · intro hlt
      simp only [generate_quiz, hresp]
      rw [if_neg (by simpa [List.isEmpty_iff] using hvalid),
        if_neg (by omega), if_pos (by
          have := List.length_pos.mpr hne
          omega)]
  refine ⟨⟨?_, ?_⟩, hmain⟩
  · intro hnone
    cases hresp : resp 0 with
    | none => exact Or.inl rfl
    | some data =>
      right
      refine ⟨data, rfl, ?_⟩
      by_contra hvne
      have h := hmain data hresp hvne
      rcases Nat.lt_or_ge (accumulated_unique fr resp n data).length n with hlt | hge
      · rw [h.2.2 hlt] at hnone; cases hnone
      · rw [(h.2.1 hge).1] at hnone; cases hnone
  · intro h
    rcases h with h | ⟨data, hresp, hval⟩
    · simp [generate_quiz, h]
    · simp only [generate_quiz, hresp]
      rw [if_pos (by simp [hval])]

/-- Witness for C1: a single well-formed response with one valid question
and a target of 1 makes `generate_quiz` return exactly that question. -/
theorem generate_quiz_termination_witness :
    generate_quiz (fun _ _ => 0)
      (fun _ => some [RawItem.mk (some "What is foo?") (some ["a", "b", "c", "d"])
        (some "a") (some "why") none none]) 1
      = some [Question.mk "What is foo?" ["a", "b", "c", "d"] "A" "why" none none] := by
  have h := (generate_quiz_termination (fun _ _ => 0)
      (fun _ => some [RawItem.mk (some "What is foo?") (some ["a", "b", "c", "d"])
        (some "a") (some "why") none none]) 1).2
      [RawItem.mk (some "What is foo?") (some ["a", "b", "c", "d"])
        (some "a") (some "why") none none] rfl (by decide)
  have h2 := (h.2.1 (by decide)).1
  rw [h2]
  decide

end Darkstar
